import Mathlib

/-!
Library-System: the catalog store (`LibraryManager` in `src/script.js`)

A shallow embedding of the `LibraryManager` class: the two ordered sequences
`books` and `history`, the browser `localStorage` it persists to, and its
query and mutation methods.

Modelling conventions.

* JavaScript strings are Lean `String`s; `string | null` fields are `Option String`.
  The `status` and `action` fields are plain strings, as in the source, so a store
  state may hold a book whose status is neither `"Available"` nor `"Issued"`.
* `new Date().toISOString()` is an input of the environment: every method that
  reads the clock takes the resulting string as the extra argument `now`.
* A method that mutates `this` and returns a value becomes a function from the
  state to the returned value paired with the new state.
* `JSON.stringify` followed by `JSON.parse` is the identity on these records
  (they hold only strings and nulls), so a stored value is kept as the record
  list that was serialised. `LocalStorage.setItemCalls` counts the calls of
  `localStorage.setItem`.
* `String.prototype.toLowerCase` is a parameter of the search functions.
* A value on which the class calls a string method without a guard (`title`,
  `author`, `isbn`, `category`, the `bookTitle` and `action` of a history record, a
  search term) is a string; a value the class tests or sets to `null` (`borrower`
  and `dueDate` of a book) is optional.
* `issueBook` stores its `borrower` argument unchecked, in the book and in the
  history record, so the argument and the `borrower` of a history record are
  optional too, `none` standing for `null`. `searchHistory` calls `toLowerCase` on
  that field: on `null` the call throws a `TypeError`, which the model renders as
  the result `none`.
-/

namespace LibrarySystem

/-! ## Data model -/

/-- A book record, with the fields of the objects in `initialBooks`. -/
structure Book where
  id : String
  title : String
  author : String
  isbn : String
  category : String
  status : String
  addedDate : String
  borrower : Option String
  dueDate : Option String
  deriving DecidableEq, Repr

/-- A history record, with the fields of the objects in `initialHistory`. -/
structure HistoryRecord where
  id : String
  bookId : String
  bookTitle : String
  action : String
  borrower : Option String
  date : String
  deriving DecidableEq, Repr

/-- The argument of `addBook`. The view passes `title`, `author`, `isbn` and
`category`; the remaining fields are those an argument may carry as well, which
the object spread `...bookData` copies and the literal then overwrites. -/
structure BookData where
  title : String
  author : String
  isbn : String
  category : String
  id : Option String
  status : Option String
  addedDate : Option String
  borrower : Option String
  dueDate : Option String
  deriving DecidableEq, Repr

/-- The browser storage, restricted to the two keys the program uses. A key that
was never written is `none` (`getItem` returns `null`). -/
structure LocalStorage where
  library_books : Option (List Book)
  library_history : Option (List HistoryRecord)
  setItemCalls : Nat
  deriving DecidableEq, Repr

/-- The state of a `LibraryManager` instance together with the storage it writes. -/
structure LibraryManager where
  books : List Book
  history : List HistoryRecord
  localStorage : LocalStorage
  deriving DecidableEq, Repr

/-! ## Seed data -/

/-- The constant `initialBooks`; each `new Date(d).toISOString()` is written out. -/
def initialBooks : List Book :=
  [ { id := "1", title := "To Kill a Mockingbird", author := "Harper Lee",
      isbn := "9780061120084", category := "Fiction", status := "Available",
      addedDate := "2025-01-15T00:00:00.000Z", borrower := none, dueDate := none },
    { id := "2", title := "1984", author := "George Orwell",
      isbn := "9780451524935", category := "Science Fiction", status := "Issued",
      addedDate := "2025-02-10T00:00:00.000Z", borrower := some "John Doe",
      dueDate := some "2025-06-10T00:00:00.000Z" },
    { id := "3", title := "The Great Gatsby", author := "F. Scott Fitzgerald",
      isbn := "9780743273565", category := "Fiction", status := "Available",
      addedDate := "2025-03-05T00:00:00.000Z", borrower := none, dueDate := none },
    { id := "4", title := "Pride and Prejudice", author := "Jane Austen",
      isbn := "9780141439518", category := "Romance", status := "Available",
      addedDate := "2025-01-20T00:00:00.000Z", borrower := none, dueDate := none },
    { id := "5", title := "The Hobbit", author := "J.R.R. Tolkien",
      isbn := "9780547928227", category := "Fantasy", status := "Issued",
      addedDate := "2025-02-15T00:00:00.000Z", borrower := some "Jane Smith",
      dueDate := some "2025-06-15T00:00:00.000Z" } ]

/-- The constant `initialHistory`. -/
def initialHistory : List HistoryRecord :=
  [ { id := "1", bookId := "2", bookTitle := "1984", action := "Issue",
      borrower := some "John Doe", date := "2025-05-10T00:00:00.000Z" },
    { id := "2", bookId := "5", bookTitle := "The Hobbit", action := "Issue",
      borrower := some "Jane Smith", date := "2025-05-15T00:00:00.000Z" } ]

/-- A storage in which neither key has been written. -/
def emptyStorage : LocalStorage :=
  { library_books := none, library_history := none, setItemCalls := 0 }

namespace LibraryManager

/-! ## Loading and saving -/

/-- The method `loadData`: each sequence is read from its key when the key holds a
value and falls back to the seed constant otherwise. -/
def loadData (s : LibraryManager) : LibraryManager :=
  { s with
    books := match s.localStorage.library_books with
      | some saved => saved
      | none => initialBooks
    history := match s.localStorage.library_history with
      | some saved => saved
      | none => initialHistory }

/-- The constructor: empty sequences, then `loadData`. -/
def new (storage : LocalStorage) : LibraryManager :=
  loadData { books := [], history := [], localStorage := storage }

/-- The store a first visit starts with: nothing persisted, so the seed is used. -/
def seed : LibraryManager := new emptyStorage

/-- The method `saveData`: two `setItem` calls, books first, then history. -/
def saveData (s : LibraryManager) : LibraryManager :=
  { s with
    localStorage :=
      { library_books := some s.books
        library_history := some s.history
        setItemCalls := s.localStorage.setItemCalls + 2 } }

/-! ## Queries -/

/-- The method `getBooks`. -/
def getBooks (s : LibraryManager) : List Book := s.books

/-- The method `getHistory`. -/
def getHistory (s : LibraryManager) : List HistoryRecord := s.history

/-- The method `getAvailableBooks`. -/
def getAvailableBooks (s : LibraryManager) : List Book :=
  s.books.filter (fun book => book.status == "Available")

/-- The method `getIssuedBooks`. -/
def getIssuedBooks (s : LibraryManager) : List Book :=
  s.books.filter (fun book => book.status == "Issued")

/-- The method `getBookById`: `Array.prototype.find`, the first book whose id is
the given one, `none` standing for `undefined`. -/
def getBookById (s : LibraryManager) (id : String) : Option Book :=
  s.books.find? (fun book => book.id == id)

end LibraryManager

/-- In-place update of the object `getBookById` returned: the first book of the
sequence with the given id is replaced by its updated version, at its position. -/
def assignFound (id : String) (f : Book → Book) : List Book → List Book
  | [] => []
  | book :: rest =>
    if book.id == id then f book :: rest else book :: assignFound id f rest

namespace LibraryManager

/-! ## Mutations -/

/-- The method `addBook`. The spread of `bookData` contributes the four
descriptive fields; `id`, `addedDate`, `status`, `borrower` and `dueDate` are set
by the literal whatever the argument carried. Returns the new book. -/
def addBook (s : LibraryManager) (bookData : BookData) (now : String) :
    Book × LibraryManager :=
  let newBook : Book :=
    { title := bookData.title
      author := bookData.author
      isbn := bookData.isbn
      category := bookData.category
      id := toString (s.books.length + 1)
      addedDate := now
      status := "Available"
      borrower := none
      dueDate := none }
  (newBook, saveData { s with books := s.books ++ [newBook] })

/-- The method `deleteBook`. -/
def deleteBook (s : LibraryManager) (id : String) : Bool × LibraryManager :=
  let initialLength := s.books.length
  let s1 := { s with books := s.books.filter (fun book => book.id != id) }
  if s1.books.length < initialLength then (true, saveData s1) else (false, s1)

/-- The method `issueBook`. The borrower and the due date are stored as they are
passed, without a test: either may be `null`, and the borrower may be the empty
string. -/
def issueBook (s : LibraryManager) (id : String) (borrower dueDate : Option String)
    (now : String) : Bool × LibraryManager :=
  match s.getBookById id with
  | none => (false, s)
  | some book =>
    if book.status != "Available" then (false, s)
    else
      let s1 := { s with
        books := assignFound id
          (fun b => { b with status := "Issued", borrower := borrower, dueDate := dueDate })
          s.books }
      let newHistoryRecord : HistoryRecord :=
        { id := toString (s1.history.length + 1)
          bookId := id
          bookTitle := book.title
          action := "Issue"
          borrower := borrower
          date := now }
      (true, saveData { s1 with history := s1.history ++ [newHistoryRecord] })

/-- The method `returnBook`. The test `!book.borrower` holds for `null` and for the
empty string. -/
def returnBook (s : LibraryManager) (id : String) (now : String) :
    Bool × LibraryManager :=
  match s.getBookById id with
  | none => (false, s)
  | some book =>
    if book.status != "Issued" then (false, s)
    else
      match book.borrower with
      | none => (false, s)
      | some borrower =>
        if borrower == "" then (false, s)
        else
          let s1 := { s with
            books := assignFound id
              (fun b => { b with status := "Available", borrower := none, dueDate := none })
              s.books }
          let newHistoryRecord : HistoryRecord :=
            { id := toString (s1.history.length + 1)
              bookId := id
              bookTitle := book.title
              action := "Return"
              borrower := some borrower
              date := now }
          (true, saveData { s1 with history := s1.history ++ [newHistoryRecord] })

end LibraryManager

/-! ## String primitives used by the searches -/

/-- The characters `String.prototype.trim` strips: the ECMAScript `WhiteSpace`
and `LineTerminator` code points. -/
def isWhiteSpace (c : Char) : Bool :=
  c.toNat ∈ [0x09, 0x0A, 0x0B, 0x0C, 0x0D, 0x20, 0xA0, 0x1680, 0x2028, 0x2029,
    0x202F, 0x205F, 0x3000, 0xFEFF] || (0x2000 ≤ c.toNat && c.toNat ≤ 0x200A)

/-- The method `String.prototype.trim`: leading and trailing white space removed. -/
def trim (s : String) : String :=
  String.mk ((s.data.dropWhile isWhiteSpace).rdropWhile isWhiteSpace)

/-- Scan behind `String.prototype.includes`: is `search` found in `text` at the
current position or at a later one? -/
def includesFrom (search : List Char) : List Char → Bool
  | [] => search.isPrefixOf []
  | c :: text => search.isPrefixOf (c :: text) || includesFrom search text

/-- The method `String.prototype.includes`, called as `text.includes(search)`. -/
def includes (text search : String) : Bool :=
  includesFrom search.data text.data

/-- The method `Array.prototype.filter` with a callback that may throw: the
elements are tested in order and an exception of the callback ends the call. -/
def filterThrowing {α : Type} (callback : α → Option Bool) : List α → Option (List α)
  | [] => some []
  | x :: rest =>
    match callback x with
    | none => none
    | some keep =>
      match filterThrowing callback rest with
      | none => none
      | some kept => some (if keep then x :: kept else kept)

/-- The object `getStats` returns. -/
structure Stats where
  totalBooks : Nat
  availableBooks : Nat
  issuedBooks : Nat
  categories : Nat
  deriving DecidableEq, Repr

namespace LibraryManager

/-! ## Searches and statistics -/

/-- The method `searchBooks`. -/
def searchBooks (toLowerCase : String → String) (s : LibraryManager) (term : String) :
    List Book :=
  if trim term == "" then []
  else
    let searchTerm := toLowerCase term
    s.books.filter (fun book =>
      includes (toLowerCase book.title) searchTerm ||
      includes (toLowerCase book.author) searchTerm ||
      includes (toLowerCase book.isbn) searchTerm ||
      includes (toLowerCase book.category) searchTerm)

/-- The callback `searchHistory` passes to `filter`. The three tests are joined by
`||`, so the borrower is looked at only when the title does not match; there
`record.borrower.toLowerCase()` throws on `null`, rendered as `none`. -/
def historyRecordMatches (toLowerCase : String → String) (searchTerm : String)
    (record : HistoryRecord) : Option Bool :=
  if includes (toLowerCase record.bookTitle) searchTerm then some true
  else
    match record.borrower with
    | none => none
    | some borrower =>
      some (includes (toLowerCase borrower) searchTerm ||
        includes (toLowerCase record.action) searchTerm)

/-- The method `searchHistory`; `none` is the `TypeError` of the callback. -/
def searchHistory (toLowerCase : String → String) (s : LibraryManager) (term : String) :
    Option (List HistoryRecord) :=
  if trim term == "" then some s.history
  else
    let searchTerm := toLowerCase term
    filterThrowing (historyRecordMatches toLowerCase searchTerm) s.history

/-- The method `getStats`; the size of the `Set` of categories is the length of
the category list without repetitions. -/
def getStats (s : LibraryManager) : Stats :=
  { totalBooks := s.books.length
    availableBooks := s.getAvailableBooks.length
    issuedBooks := s.getIssuedBooks.length
    categories := ((s.books.map (fun book => book.category)).dedup).length }

end LibraryManager

/-! ## Calls on the store -/

/-- A call of one of the four mutating methods, with its arguments. -/
inductive Mutation where
  | addBook (bookData : BookData) (now : String)
  | deleteBook (id : String)
  | issueBook (id : String) (borrower dueDate : Option String) (now : String)
  | returnBook (id : String) (now : String)
  deriving DecidableEq, Repr

/-- A call of one of the read-only methods, with its arguments. -/
inductive Query where
  | getBooks
  | getHistory
  | getAvailableBooks
  | getIssuedBooks
  | getBookById (id : String)
  | searchBooks (term : String)
  | searchHistory (term : String)
  | getStats
  deriving DecidableEq, Repr

/-- Any call on the store. -/
inductive Operation where
  | mutation (m : Mutation)
  | query (q : Query)
  deriving DecidableEq, Repr

/-- What a call returns, or the `TypeError` it throws. -/
inductive Value where
  | bool (b : Bool)
  | book (b : Option Book)
  | books (bs : List Book)
  | history (hs : List HistoryRecord)
  | stats (st : Stats)
  | typeError
  deriving DecidableEq, Repr

/-- Run a mutating call: the returned value and the state after it. -/
def Mutation.run (m : Mutation) (s : LibraryManager) : Value × LibraryManager :=
  match m with
  | .addBook bookData now => ((Value.book ∘ some) (s.addBook bookData now).1, (s.addBook bookData now).2)
  | .deleteBook id => (Value.bool (s.deleteBook id).1, (s.deleteBook id).2)
  | .issueBook id borrower dueDate now =>
    (Value.bool (s.issueBook id borrower dueDate now).1, (s.issueBook id borrower dueDate now).2)
  | .returnBook id now => (Value.bool (s.returnBook id now).1, (s.returnBook id now).2)

/-- Run a read-only call: the returned value. None of these methods assigns a
field of `this`. -/
def Query.run (toLowerCase : String → String) (q : Query) (s : LibraryManager) : Value :=
  match q with
  | .getBooks => Value.books s.getBooks
  | .getHistory => Value.history s.getHistory
  | .getAvailableBooks => Value.books s.getAvailableBooks
  | .getIssuedBooks => Value.books s.getIssuedBooks
  | .getBookById id => Value.book (s.getBookById id)
  | .searchBooks term => Value.books (s.searchBooks toLowerCase term)
  | .searchHistory term =>
    match s.searchHistory toLowerCase term with
    | some hs => Value.history hs
    | none => Value.typeError
  | .getStats => Value.stats s.getStats

/-- Run any call: the returned value and the state after it. -/
def Operation.run (toLowerCase : String → String) (op : Operation) (s : LibraryManager) :
    Value × LibraryManager :=
  match op with
  | .mutation m => m.run s
  | .query q => (q.run toLowerCase s, s)

/-- The state after a sequence of mutating calls, run in order. -/
def runMutations (ms : List Mutation) (s : LibraryManager) : LibraryManager :=
  ms.foldl (fun acc m => (m.run acc).2) s

/-- The state after a sequence of arbitrary calls, run in order. -/
def runOperations (toLowerCase : String → String) (ops : List Operation)
    (s : LibraryManager) : LibraryManager :=
  ops.foldl (fun acc op => (op.run toLowerCase acc).2) s

/-- Lower-casing of the ASCII letters, an instance of the `toLowerCase` parameter
for strings without other cased letters. -/
def asciiToLowerCase (s : String) : String :=
  String.mk (s.data.map Char.toLower)

/-! ## Specification predicates -/

/-- The property of one book that the data model states as its invariant. -/
def Book.Consistent (b : Book) : Prop :=
  (b.status = "Issued" → b.borrower ≠ none) ∧
  (b.status = "Available" → b.borrower = none ∧ b.dueDate = none)

/-- A term that is empty or consists only of white space. -/
def IsBlank (term : String) : Prop :=
  ∀ c ∈ term.data, isWhiteSpace c = true

/-- The string `search` occurs in `text` as a contiguous run of characters. -/
def IsSubstring (search text : String) : Prop :=
  search.data <:+: text.data

/-- The lower-cased term is a substring of the lower-cased title, author, isbn or
category of the book. -/
def MatchesTerm (toLowerCase : String → String) (term : String) (b : Book) : Prop :=
  IsSubstring (toLowerCase term) (toLowerCase b.title) ∨
  IsSubstring (toLowerCase term) (toLowerCase b.author) ∨
  IsSubstring (toLowerCase term) (toLowerCase b.isbn) ∨
  IsSubstring (toLowerCase term) (toLowerCase b.category)

instance decidableIsBlank (term : String) : Decidable (IsBlank term) := by
  unfold IsBlank; infer_instance

instance decidableIsSubstring (search text : String) : Decidable (IsSubstring search text) := by
  unfold IsSubstring; infer_instance

instance decidableMatchesTerm (toLowerCase : String → String) (term : String) (b : Book) :
    Decidable (MatchesTerm toLowerCase term b) := by
  unfold MatchesTerm; infer_instance

/-- The lower-cased term is a substring of the lower-cased bookTitle, borrower or
action of the history record. -/
def MatchesRecord (toLowerCase : String → String) (term : String) (r : HistoryRecord) :
    Prop :=
  IsSubstring (toLowerCase term) (toLowerCase r.bookTitle) ∨
  (∃ w, r.borrower = some w ∧ IsSubstring (toLowerCase term) (toLowerCase w)) ∨
  IsSubstring (toLowerCase term) (toLowerCase r.action)

instance decidableBorrowerMatches (p : String → Prop) [DecidablePred p]
    (borrower : Option String) : Decidable (∃ w, borrower = some w ∧ p w) :=
  match borrower with
  | none => isFalse (fun h => by obtain ⟨w, hw, _⟩ := h; cases hw)
  | some w =>
    if hp : p w then isTrue ⟨w, rfl, hp⟩
    else isFalse (fun h => by obtain ⟨v, hv, hpv⟩ := h; cases hv; exact hp hpv)

instance decidableMatchesRecord (toLowerCase : String → String) (term : String)
    (r : HistoryRecord) : Decidable (MatchesRecord toLowerCase term r) := by
  unfold MatchesRecord; infer_instance

/-- A mutating call that is not an `issueBook` with a null borrower. -/
def Mutation.BorrowerGiven : Mutation → Prop
  | .issueBook _ borrower _ _ => borrower ≠ none
  | _ => True

instance decidableBorrowerGiven (m : Mutation) : Decidable m.BorrowerGiven := by
  cases m <;> unfold Mutation.BorrowerGiven <;> infer_instance

/-- The number a list of decimal digit characters denotes, most significant first. -/
def decimalValue (cs : List Char) : Nat :=
  cs.foldl (fun acc c => 10 * acc + (c.toNat - 48)) 0

/-- Every book of the sequence has one of the two statuses of the data model. -/
def StatusesKnown (books : List Book) : Prop :=
  ∀ b ∈ books, b.status = "Available" ∨ b.status = "Issued"

/-- The record at position `k`, counted from 1, has the decimal string of `k` as id. -/
def HistoryNumbered (history : List HistoryRecord) : Prop :=
  ∀ (k : Nat) (r : HistoryRecord), history[k]? = some r → r.id = toString (k + 1)

/-! ## Auxiliary facts -/

open LibraryManager

theorem assignFound_length (id : String) (f : Book → Book) (l : List Book) :
    (assignFound id f l).length = l.length := by
  induction l with
  | nil => rfl
  | cons b rest ih =>
    unfold assignFound
    split <;> simp [ih]

theorem mem_assignFound {id : String} {f : Book → Book} {l : List Book} {x : Book}
    (h : x ∈ assignFound id f l) : x ∈ l ∨ ∃ b ∈ l, x = f b := by
  induction l with
  | nil => simp [assignFound] at h
  | cons b rest ih =>
    unfold assignFound at h
    split at h
    · rcases List.mem_cons.1 h with h1 | h1
      · exact Or.inr ⟨b, List.mem_cons_self _ _, h1⟩
      · exact Or.inl (List.mem_cons_of_mem _ h1)
    · rcases List.mem_cons.1 h with h1 | h1
      · exact Or.inl (h1 ▸ List.mem_cons_self _ _)
      · rcases ih h1 with h2 | ⟨c, hc, hx⟩
        · exact Or.inl (List.mem_cons_of_mem _ h2)
        · exact Or.inr ⟨c, List.mem_cons_of_mem _ hc, hx⟩

/-- The book `find?` returns splits the sequence: no book before it has the id,
and `assignFound` rewrites exactly that position. -/
theorem assignFound_of_find {id : String} (f : Book → Book) {l : List Book} {book : Book}
    (h : l.find? (fun b => b.id == id) = some book) :
    ∃ before after, l = before ++ book :: after ∧ (∀ x ∈ before, x.id ≠ id) ∧
      book.id = id ∧ assignFound id f l = before ++ f book :: after := by
  induction l with
  | nil => simp at h
  | cons b rest ih =>
    by_cases hb : b.id = id
    · have hbook : b = book := by simpa [List.find?_cons, hb] using h
      subst hbook
      exact ⟨[], rest, rfl, by simp, hb, by simp [assignFound, hb]⟩
    · have hrest : rest.find? (fun b => b.id == id) = some book := by
        simpa [List.find?_cons, hb] using h
      obtain ⟨before, after, h1, h2, h3, h4⟩ := ih hrest
      refine ⟨b :: before, after, by simp [h1], ?_, h3, ?_⟩
      · intro x hx
        rcases List.mem_cons.1 hx with hx1 | hx1
        · exact hx1 ▸ hb
        · exact h2 x hx1
      · simp [assignFound, hb, h4]

theorem consistent_initialBooks : ∀ b ∈ initialBooks, b.Consistent := by
  intro b hb
  simp only [initialBooks, List.mem_cons, List.mem_singleton, List.not_mem_nil, or_false] at hb
  rcases hb with rfl | rfl | rfl | rfl | rfl <;> simp [Book.Consistent]

theorem consistent_run (m : Mutation) (s : LibraryManager) (hm : m.BorrowerGiven)
    (hs : ∀ b ∈ s.books, b.Consistent) : ∀ b ∈ (m.run s).2.books, b.Consistent := by
  cases m with
  | addBook bookData now =>
    intro b hb
    simp only [Mutation.run, addBook, saveData, List.mem_append, List.mem_singleton] at hb
    rcases hb with hb | rfl
    · exact hs b hb
    · simp [Book.Consistent]
  | deleteBook id =>
    intro b hb
    simp only [Mutation.run, deleteBook] at hb
    split at hb
    · simp only [saveData, List.mem_filter] at hb
      exact hs b hb.1
    · simp only [List.mem_filter] at hb
      exact hs b hb.1
  | issueBook id borrower dueDate now =>
    have hgiven : borrower ≠ none := hm
    intro b hb
    simp only [Mutation.run, issueBook] at hb
    split at hb
    · exact hs b hb
    · split at hb
      · exact hs b hb
      · simp only [saveData] at hb
        rcases mem_assignFound hb with h1 | ⟨c, _, rfl⟩
        · exact hs b h1
        · exact ⟨fun _ => hgiven,
            fun h => absurd h (by decide : ("Issued" : String) ≠ "Available")⟩
  | returnBook id now =>
    intro b hb
    simp only [Mutation.run, returnBook] at hb
    split at hb
    · exact hs b hb
    · split at hb
      · exact hs b hb
      · split at hb
        · exact hs b hb
        · split at hb
          · exact hs b hb
          · simp only [saveData] at hb
            rcases mem_assignFound hb with h1 | ⟨c, _, rfl⟩
            · exact hs b h1
            · simp [Book.Consistent]

theorem consistent_runMutations (ms : List Mutation) (s : LibraryManager)
    (hms : ∀ m ∈ ms, m.BorrowerGiven) (hs : ∀ b ∈ s.books, b.Consistent) :
    ∀ b ∈ (runMutations ms s).books, b.Consistent := by
  induction ms generalizing s with
  | nil => exact hs
  | cons m rest ih =>
    exact ih _ (fun x hx => hms x (List.mem_cons_of_mem _ hx))
      (consistent_run m s (hms m (List.mem_cons_self _ _)) hs)

/-- Whatever the arguments, a mutating call leaves every Available book without
borrower and due date. -/
theorem availableClean_run (m : Mutation) (s : LibraryManager)
    (hs : ∀ b ∈ s.books, b.status = "Available" → b.borrower = none ∧ b.dueDate = none) :
    ∀ b ∈ (m.run s).2.books,
      b.status = "Available" → b.borrower = none ∧ b.dueDate = none := by
  cases m with
  | addBook bookData now =>
    intro b hb
    simp only [Mutation.run, addBook, saveData, List.mem_append, List.mem_singleton] at hb
    rcases hb with hb | rfl
    · exact hs b hb
    · exact fun _ => ⟨rfl, rfl⟩
  | deleteBook id =>
    intro b hb
    simp only [Mutation.run, deleteBook] at hb
    split at hb
    · simp only [saveData, List.mem_filter] at hb
      exact hs b hb.1
    · simp only [List.mem_filter] at hb
      exact hs b hb.1
  | issueBook id borrower dueDate now =>
    intro b hb
    simp only [Mutation.run, issueBook] at hb
    split at hb
    · exact hs b hb
    · split at hb
      · exact hs b hb
      · simp only [saveData] at hb
        rcases mem_assignFound hb with h1 | ⟨c, _, rfl⟩
        · exact hs b h1
        · exact fun h => absurd h (by decide : ("Issued" : String) ≠ "Available")
  | returnBook id now =>
    intro b hb
    simp only [Mutation.run, returnBook] at hb
    split at hb
    · exact hs b hb
    · split at hb
      · exact hs b hb
      · split at hb
        · exact hs b hb
        · split at hb
          · exact hs b hb
          · simp only [saveData] at hb
            rcases mem_assignFound hb with h1 | ⟨c, _, rfl⟩
            · exact hs b h1
            · exact fun _ => ⟨rfl, rfl⟩

theorem availableClean_runMutations (ms : List Mutation) (s : LibraryManager)
    (hs : ∀ b ∈ s.books, b.status = "Available" → b.borrower = none ∧ b.dueDate = none) :
    ∀ b ∈ (runMutations ms s).books,
      b.status = "Available" → b.borrower = none ∧ b.dueDate = none := by
  induction ms generalizing s with
  | nil => exact hs
  | cons m rest ih => exact ih _ (availableClean_run m s hs)

theorem getBookById_eq_none_iff (s : LibraryManager) (id : String) :
    s.getBookById id = none ↔ ∀ b ∈ s.books, b.id ≠ id := by
  simp [getBookById, List.find?_eq_none]

theorem history_prefix_run (m : Mutation) (s : LibraryManager) :
    s.history <+: (m.run s).2.history := by
  cases m with
  | addBook bookData now => exact List.prefix_refl _
  | deleteBook id =>
    simp only [Mutation.run, deleteBook]
    split <;> exact List.prefix_refl _
  | issueBook id borrower dueDate now =>
    simp only [Mutation.run, issueBook]
    split
    · exact List.prefix_refl _
    · split
      · exact List.prefix_refl _
      · exact List.prefix_append _ _
  | returnBook id now =>
    simp only [Mutation.run, returnBook]
    split
    · exact List.prefix_refl _
    · split
      · exact List.prefix_refl _
      · split
        · exact List.prefix_refl _
        · split
          · exact List.prefix_refl _
          · exact List.prefix_append _ _

theorem history_prefix_operation (toLowerCase : String → String) (op : Operation)
    (s : LibraryManager) : s.history <+: (op.run toLowerCase s).2.history := by
  cases op with
  | mutation m => exact history_prefix_run m s
  | query q => exact List.prefix_refl _

theorem history_prefix_runOperations (toLowerCase : String → String) (ops : List Operation)
    (s : LibraryManager) : s.history <+: (runOperations toLowerCase ops s).history := by
  induction ops generalizing s with
  | nil => exact List.prefix_refl _
  | cons op rest ih =>
    exact List.IsPrefix.trans (history_prefix_operation toLowerCase op s) (ih _)

theorem getElem?_of_initial_segment {α : Type} {l₁ l₂ : List α} (h : l₁ <+: l₂) (k : Nat) (r : α)
    (hk : l₁[k]? = some r) : l₂[k]? = some r := by
  obtain ⟨t, rfl⟩ := h
  have hlt : k < l₁.length := by
    rcases Nat.lt_or_ge k l₁.length with h1 | h1
    · exact h1
    · rw [List.getElem?_eq_none h1] at hk
      cases hk
  rw [List.getElem?_append_left hlt]
  exact hk

theorem all_of_dropWhile (p : Char → Bool) (l : List Char)
    (h : (l.dropWhile p).rdropWhile p = []) : ∀ x ∈ l, p x = true := by
  have h2 : ∀ x ∈ l.dropWhile p, p x = true := List.rdropWhile_eq_nil_iff.1 h
  clear h
  induction l with
  | nil => simp
  | cons c rest ih =>
    by_cases hc : p c = true
    · rw [List.dropWhile_cons_of_pos hc] at h2
      intro x hx
      rcases List.mem_cons.1 hx with rfl | hx1
      · exact hc
      · exact ih h2 x hx1
    · rw [List.dropWhile_cons_of_neg hc] at h2
      exact absurd (h2 c (List.mem_cons_self _ _)) hc

theorem trim_eq_empty_iff (term : String) : trim term = "" ↔ IsBlank term := by
  unfold trim IsBlank
  constructor
  · intro h
    have h1 : (term.data.dropWhile isWhiteSpace).rdropWhile isWhiteSpace = [] := by
      have := congrArg String.data h
      simpa using this
    exact all_of_dropWhile isWhiteSpace term.data h1
  · intro h
    have h1 : term.data.dropWhile isWhiteSpace = [] := List.dropWhile_eq_nil_iff.2 (by simpa using h)
    rw [h1]
    rfl

theorem includesFrom_iff (search text : List Char) :
    includesFrom search text = true ↔ search <:+: text := by
  induction text with
  | nil => simp [includesFrom]
  | cons c rest ih =>
    rw [List.infix_cons_iff, ← ih]
    simp [includesFrom]

theorem includes_iff (text search : String) :
    includes text search = true ↔ IsSubstring search text :=
  includesFrom_iff search.data text.data

theorem categories_eq_card (s : LibraryManager) :
    s.getStats.categories = (s.books.map (fun b => b.category)).toFinset.card := by
  simp only [getStats, List.card_toFinset]

theorem categories_toFinset_addBook (s : LibraryManager) (bookData : BookData)
    (now : String) :
    ((s.addBook bookData now).2.books.map (fun b => b.category)).toFinset =
      insert bookData.category (s.books.map (fun b => b.category)).toFinset := by
  ext c
  simp only [addBook, saveData, List.map_append, List.map_cons, List.map_nil,
    List.toFinset_append, List.toFinset_cons, List.toFinset_nil, Finset.mem_union,
    Finset.mem_insert, List.mem_toFinset, Finset.not_mem_empty, or_false]
  exact Or.comm

/-- A mutating call that does not return false ends with `saveData`. -/
theorem run_eq_saveData (m : Mutation) (s : LibraryManager)
    (hok : (m.run s).1 ≠ Value.bool false) :
    ∃ s1 : LibraryManager, (m.run s).2 = saveData s1 := by
  cases m with
  | addBook bookData now => exact ⟨_, rfl⟩
  | deleteBook id =>
    simp only [Mutation.run, deleteBook] at hok ⊢
    split at hok
    · rename_i hlt
      rw [if_pos hlt]
      exact ⟨_, rfl⟩
    · exact absurd rfl hok
  | issueBook id borrower dueDate now =>
    simp only [Mutation.run, issueBook] at hok ⊢
    split at hok
    · exact absurd rfl hok
    · rename_i book hfind
      split at hok
      · exact absurd rfl hok
      · rename_i hst
        rw [if_neg hst]
        exact ⟨_, rfl⟩
  | returnBook id now =>
    simp only [Mutation.run, returnBook] at hok ⊢
    split at hok
    · exact absurd rfl hok
    · split at hok
      · exact absurd rfl hok
      · rename_i hst
        rw [if_neg hst]
        split at hok
        · exact absurd rfl hok
        · split at hok
          · exact absurd rfl hok
          · rename_i hw
            rw [if_neg hw]
            exact ⟨_, rfl⟩

theorem assignFound_split (id : String) (f : Book → Book) (before : List Book) (x : Book)
    (after : List Book) (hbefore : ∀ b ∈ before, b.id ≠ id) (hx : x.id = id) :
    assignFound id f (before ++ x :: after) = before ++ f x :: after := by
  induction before with
  | nil => simp [assignFound, hx]
  | cons b rest ih =>
    have hb : b.id ≠ id := hbefore b (List.mem_cons_self _ _)
    have hrest : ∀ c ∈ rest, c.id ≠ id := fun c hc => hbefore c (List.mem_cons_of_mem _ hc)
    simp [assignFound, hb, ih hrest]

theorem getBookById_of_split (s : LibraryManager) (id : String) (before after : List Book)
    (x : Book) (hbooks : s.books = before ++ x :: after) (hbefore : ∀ b ∈ before, b.id ≠ id)
    (hx : x.id = id) : s.getBookById id = some x := by
  unfold getBookById
  rw [hbooks, List.find?_append]
  have hnone : before.find? (fun book => book.id == id) = none := by
    rw [List.find?_eq_none]
    intro b hb
    simpa using hbefore b hb
  rw [hnone]
  simp [hx]

theorem issueBook_of_available (s : LibraryManager) (id : String)
    (borrower dueDate : Option String) (now : String) (book : Book)
    (hfind : s.getBookById id = some book) (hst : book.status = "Available") :
    s.issueBook id borrower dueDate now =
      (true, saveData
        { books := assignFound id
            (fun b => { b with status := "Issued", borrower := borrower, dueDate := dueDate })
            s.books
          history := s.history ++
            [{ id := toString (s.history.length + 1), bookId := id, bookTitle := book.title,
               action := "Issue", borrower := borrower, date := now }]
          localStorage := s.localStorage }) := by
  simp [issueBook, hfind, hst]

theorem returnBook_of_issued (s : LibraryManager) (id now : String) (book : Book)
    (w : String) (hfind : s.getBookById id = some book) (hst : book.status = "Issued")
    (hbor : book.borrower = some w) (hw : w ≠ "") :
    s.returnBook id now =
      (true, saveData
        { books := assignFound id
            (fun b => { b with status := "Available", borrower := none, dueDate := none })
            s.books
          history := s.history ++
            [{ id := toString (s.history.length + 1), bookId := id, bookTitle := book.title,
               action := "Return", borrower := some w, date := now }]
          localStorage := s.localStorage }) := by
  simp [returnBook, hfind, hst, hbor, hw]

theorem statusesKnown_initialBooks : StatusesKnown initialBooks := by
  intro b hb
  simp only [initialBooks, List.mem_cons, List.mem_singleton, List.not_mem_nil, or_false] at hb
  rcases hb with rfl | rfl | rfl | rfl | rfl <;> simp

theorem statusesKnown_run (m : Mutation) (s : LibraryManager) (hs : StatusesKnown s.books) :
    StatusesKnown (m.run s).2.books := by
  cases m with
  | addBook bookData now =>
    intro b hb
    simp only [Mutation.run, addBook, saveData, List.mem_append, List.mem_singleton] at hb
    rcases hb with hb | rfl
    · exact hs b hb
    · exact Or.inl rfl
  | deleteBook id =>
    intro b hb
    simp only [Mutation.run, deleteBook] at hb
    split at hb
    · simp only [saveData, List.mem_filter] at hb
      exact hs b hb.1
    · simp only [List.mem_filter] at hb
      exact hs b hb.1
  | issueBook id borrower dueDate now =>
    intro b hb
    simp only [Mutation.run, issueBook] at hb
    split at hb
    · exact hs b hb
    · split at hb
      · exact hs b hb
      · simp only [saveData] at hb
        rcases mem_assignFound hb with h1 | ⟨c, _, rfl⟩
        · exact hs b h1
        · exact Or.inr rfl
  | returnBook id now =>
    intro b hb
    simp only [Mutation.run, returnBook] at hb
    split at hb
    · exact hs b hb
    · split at hb
      · exact hs b hb
      · split at hb
        · exact hs b hb
        · split at hb
          · exact hs b hb
          · simp only [saveData] at hb
            rcases mem_assignFound hb with h1 | ⟨c, _, rfl⟩
            · exact hs b h1
            · exact Or.inl rfl

theorem statusesKnown_runMutations (ms : List Mutation) (s : LibraryManager)
    (hs : StatusesKnown s.books) : StatusesKnown (runMutations ms s).books := by
  induction ms generalizing s with
  | nil => exact hs
  | cons m rest ih => exact ih _ (statusesKnown_run m s hs)

theorem length_filter_statuses (books : List Book) (h : StatusesKnown books) :
    (books.filter (fun book => book.status == "Available")).length +
      (books.filter (fun book => book.status == "Issued")).length = books.length := by
  induction books with
  | nil => rfl
  | cons b rest ih =>
    have hrest : StatusesKnown rest := fun c hc => h c (List.mem_cons_of_mem _ hc)
    have ih1 := ih hrest
    rcases h b (List.mem_cons_self _ _) with hb | hb
    · simp only [List.filter_cons, hb, beq_self_eq_true, if_true, List.length_cons]
      have : ("Available" == "Issued") = false := by decide
      simp only [this, Bool.false_eq_true, if_false]
      omega
    · simp only [List.filter_cons, hb, beq_self_eq_true, if_true, List.length_cons]
      have : ("Issued" == "Available") = false := by decide
      simp only [this, Bool.false_eq_true, if_false]
      omega

theorem digitChar_value : ∀ d, d < 10 → (Nat.digitChar d).toNat - 48 = d := by
  decide

theorem decimalValue_append_singleton (cs : List Char) (c : Char) :
    decimalValue (cs ++ [c]) = 10 * decimalValue cs + (c.toNat - 48) := by
  simp [decimalValue, List.foldl_append]

/-- The digits `Nat.toDigitsCore` puts in front of the accumulator denote the number,
when the fuel exceeds it. -/
theorem toDigitsCore_spec (fuel : Nat) : ∀ (n : Nat) (ds : List Char), n < fuel →
    ∃ cs, Nat.toDigitsCore 10 fuel n ds = cs ++ ds ∧ decimalValue cs = n := by
  induction fuel with
  | zero => intro n ds h; omega
  | succ fuel ih =>
    intro n ds hn
    unfold Nat.toDigitsCore
    simp only
    by_cases hq : n / 10 = 0
    · rw [if_pos hq]
      refine ⟨[Nat.digitChar (n % 10)], rfl, ?_⟩
      have hval := digitChar_value (n % 10) (Nat.mod_lt _ (by decide))
      simp only [decimalValue, List.foldl_cons, List.foldl_nil, Nat.mul_zero, Nat.zero_add]
      omega
    · rw [if_neg hq]
      have hlt : n / 10 < fuel := by omega
      obtain ⟨cs, hcs, hval⟩ := ih (n / 10) (Nat.digitChar (n % 10) :: ds) hlt
      refine ⟨cs ++ [Nat.digitChar (n % 10)], ?_, ?_⟩
      · rw [hcs]
        simp
      · rw [decimalValue_append_singleton, hval,
          digitChar_value (n % 10) (Nat.mod_lt _ (by decide))]
        omega

theorem decimalValue_toString (n : Nat) : decimalValue (toString n).data = n := by
  obtain ⟨cs, hcs, hval⟩ := toDigitsCore_spec (n + 1) n [] (Nat.lt_succ_self n)
  have hdata : (toString n).data = cs := by
    show (Nat.repr n).data = cs
    simp only [Nat.repr, Nat.toDigits, hcs, List.append_nil, List.asString]
  rw [hdata, hval]

theorem toString_nat_injective {a b : Nat} (h : toString a = toString b) : a = b := by
  have := congrArg (fun t : String => decimalValue t.data) h
  simpa only [decimalValue_toString] using this

theorem historyNumbered_initialHistory : HistoryNumbered initialHistory := by
  intro k r hk
  match k, hk with
  | 0, hk =>
    simp only [initialHistory, List.getElem?_cons_zero, Option.some.injEq] at hk
    subst hk
    decide
  | 1, hk =>
    simp only [initialHistory, List.getElem?_cons_succ, List.getElem?_cons_zero,
      Option.some.injEq] at hk
    subst hk
    decide
  | k + 2, hk =>
    simp [initialHistory] at hk

theorem historyNumbered_append (history : List HistoryRecord) (r : HistoryRecord)
    (h : HistoryNumbered history) (hr : r.id = toString (history.length + 1)) :
    HistoryNumbered (history ++ [r]) := by
  intro k x hk
  rcases Nat.lt_or_ge k history.length with hlt | hge
  · rw [List.getElem?_append_left hlt] at hk
    exact h k x hk
  · rw [List.getElem?_append_right hge] at hk
    rcases Nat.eq_or_lt_of_le hge with heq | hgt
    · have hzero : k - history.length = 0 := by omega
      rw [hzero] at hk
      simp only [List.getElem?_cons_zero, Option.some.injEq] at hk
      subst hk
      rw [hr, heq]
    · have hpos : k - history.length = (k - history.length - 1) + 1 := by omega
      rw [hpos] at hk
      simp at hk

theorem historyNumbered_run (m : Mutation) (s : LibraryManager)
    (h : HistoryNumbered s.history) : HistoryNumbered (m.run s).2.history := by
  cases m with
  | addBook bookData now => exact h
  | deleteBook id =>
    simp only [Mutation.run, deleteBook]
    split <;> exact h
  | issueBook id borrower dueDate now =>
    simp only [Mutation.run, issueBook]
    split
    · exact h
    · split
      · exact h
      · exact historyNumbered_append _ _ h rfl
  | returnBook id now =>
    simp only [Mutation.run, returnBook]
    split
    · exact h
    · split
      · exact h
      · split
        · exact h
        · split
          · exact h
          · exact historyNumbered_append _ _ h rfl

theorem historyNumbered_runOperations (toLowerCase : String → String)
    (ops : List Operation) (s : LibraryManager) (h : HistoryNumbered s.history) :
    HistoryNumbered (runOperations toLowerCase ops s).history := by
  induction ops generalizing s with
  | nil => exact h
  | cons op rest ih =>
    apply ih
    cases op with
    | mutation m => exact historyNumbered_run m s h
    | query q => exact h

theorem index_eq_of_numbered {history : List HistoryRecord} (h : HistoryNumbered history)
    {i j : Nat} {r₁ r₂ : HistoryRecord} (hi : history[i]? = some r₁)
    (hj : history[j]? = some r₂) (hid : r₁.id = r₂.id) : i = j := by
  have h1 := h i r₁ hi
  have h2 := h j r₂ hj
  have h3 : toString (i + 1) = toString (j + 1) := by rw [← h1, ← h2, hid]
  have := toString_nat_injective h3
  omega

theorem nodup_ids_of_numbered {history : List HistoryRecord} (h : HistoryNumbered history) :
    (history.map (fun r => r.id)).Nodup := by
  rw [List.nodup_iff_getElem?_ne_getElem?]
  intro i j hij hj heq
  rw [List.length_map] at hj
  have hi : i < history.length := Nat.lt_trans hij hj
  rw [List.getElem?_map, List.getElem?_map, List.getElem?_eq_getElem hi,
    List.getElem?_eq_getElem hj] at heq
  simp only [Option.map_some', Option.some.injEq] at heq
  have := index_eq_of_numbered h (List.getElem?_eq_getElem hi) (List.getElem?_eq_getElem hj) heq
  omega

theorem filterThrowing_sound {α : Type} (callback : α → Option Bool) (q : α → Bool)
    (l : List α) (h : ∀ x ∈ l, ∀ b, callback x = some b → b = q x) :
    ∀ result, filterThrowing callback l = some result → result = l.filter q := by
  induction l with
  | nil =>
    intro result hres
    simp only [filterThrowing, Option.some.injEq] at hres
    simp [← hres]
  | cons x rest ih =>
    intro result hres
    have hrest : ∀ y ∈ rest, ∀ b, callback y = some b → b = q y :=
      fun y hy => h y (List.mem_cons_of_mem _ hy)
    unfold filterThrowing at hres
    cases hx : callback x with
    | none => simp [hx] at hres
    | some keep =>
      cases hr : filterThrowing callback rest with
      | none => simp [hx, hr] at hres
      | some kept =>
        simp only [hx, hr, Option.some.injEq] at hres
        have hkeep : keep = q x := h x (List.mem_cons_self _ _) keep hx
        have hkept : kept = rest.filter q := ih hrest kept hr
        rw [← hres, hkeep, hkept, List.filter_cons]

theorem filterThrowing_eq_none_iff {α : Type} (callback : α → Option Bool) (l : List α) :
    filterThrowing callback l = none ↔ ∃ x ∈ l, callback x = none := by
  induction l with
  | nil => simp [filterThrowing]
  | cons x rest ih =>
    unfold filterThrowing
    cases hx : callback x with
    | none => simp [hx]
    | some keep =>
      cases hr : filterThrowing callback rest with
      | none =>
        have := ih.1 hr
        simp [hx, this]
      | some kept =>
        have hno : ¬ ∃ y ∈ rest, callback y = none := fun h => by
          have := ih.2 h
          rw [hr] at this
          cases this
        constructor
        · intro h
          cases h
        · rintro ⟨y, hy, hnone⟩
          rcases List.mem_cons.1 hy with rfl | hy1
          · rw [hx] at hnone
            cases hnone
          · exact absurd ⟨y, hy1, hnone⟩ hno

theorem historyRecordMatches_sound (toLowerCase : String → String) (term : String)
    (r : HistoryRecord) (b : Bool)
    (h : historyRecordMatches toLowerCase (toLowerCase term) r = some b) :
    b = decide (MatchesRecord toLowerCase term r) := by
  unfold historyRecordMatches at h
  by_cases ht : includes (toLowerCase r.bookTitle) (toLowerCase term) = true
  · rw [if_pos ht] at h
    have hm : MatchesRecord toLowerCase term r := Or.inl ((includes_iff _ _).1 ht)
    simp only [Option.some.injEq] at h
    rw [← h]
    exact (decide_eq_true hm).symm
  · rw [if_neg ht] at h
    cases hbor : r.borrower with
    | none => simp [hbor] at h
    | some w =>
      simp only [hbor, Option.some.injEq] at h
      rw [← h]
      have hnt : ¬ IsSubstring (toLowerCase term) (toLowerCase r.bookTitle) :=
        fun hsub => ht ((includes_iff _ _).2 hsub)
      by_cases hw : includes (toLowerCase w) (toLowerCase term) = true
      · have hm : MatchesRecord toLowerCase term r :=
          Or.inr (Or.inl ⟨w, hbor, (includes_iff _ _).1 hw⟩)
        rw [hw, Bool.true_or]
        exact (decide_eq_true hm).symm
      · by_cases ha : includes (toLowerCase r.action) (toLowerCase term) = true
        · have hm : MatchesRecord toLowerCase term r :=
            Or.inr (Or.inr ((includes_iff _ _).1 ha))
          rw [ha, Bool.or_true]
          exact (decide_eq_true hm).symm
        · have hm : ¬ MatchesRecord toLowerCase term r := by
            rintro (h1 | ⟨v, hv, h2⟩ | h3)
            · exact hnt h1
            · rw [hbor] at hv
              cases hv
              exact hw ((includes_iff _ _).2 h2)
            · exact ha ((includes_iff _ _).2 h3)
          rw [Bool.not_eq_true] at hw ha
          rw [hw, ha, Bool.or_false]
          exact (decide_eq_false hm).symm

theorem historyRecordMatches_eq_none_iff (toLowerCase : String → String) (term : String)
    (r : HistoryRecord) :
    historyRecordMatches toLowerCase (toLowerCase term) r = none ↔
      r.borrower = none ∧ ¬ IsSubstring (toLowerCase term) (toLowerCase r.bookTitle) := by
  unfold historyRecordMatches
  rw [← includes_iff]
  by_cases ht : includes (toLowerCase r.bookTitle) (toLowerCase term) = true
  · simp [ht]
  · cases hbor : r.borrower with
    | none => simp [ht]
    | some w => simp [ht]

/-! ## The claims -/

/-- C1, as amended. In every state reached from the seed by a finite sequence of
`addBook`, `deleteBook`, `issueBook` and `returnBook` calls with arbitrary arguments,
every book with status Available has borrower null and dueDate null; and when no
`issueBook` call of the sequence passed a null borrower (any string, the empty one
included, may be passed), every book with status Issued has a borrower that is not
null. -/
theorem C1_status_borrower_invariant (ms : List Mutation) (b : Book)
    (hb : b ∈ (runMutations ms seed).books) :
    (b.status = "Available" → b.borrower = none ∧ b.dueDate = none) ∧
    ((∀ m ∈ ms, m.BorrowerGiven) → b.status = "Issued" → b.borrower ≠ none) :=
  ⟨availableClean_runMutations ms seed (fun x hx => (consistent_initialBooks x hx).2) b hb,
    fun hms => (consistent_runMutations ms seed hms consistent_initialBooks b hb).1⟩

theorem C1_status_borrower_invariant_witness :
    (⟨"3", "The Great Gatsby", "F. Scott Fitzgerald", "9780743273565", "Fiction", "Issued",
        "2025-03-05T00:00:00.000Z", some "", some "2025-07-01"⟩ : Book) ∈
      (runMutations [Mutation.issueBook "3" (some "") (some "2025-07-01") "t0"] seed).books ∧
    ((⟨"3", "The Great Gatsby", "F. Scott Fitzgerald", "9780743273565", "Fiction", "Issued",
        "2025-03-05T00:00:00.000Z", some "", some "2025-07-01"⟩ : Book).borrower ≠ none) :=
  ⟨by decide,
    (C1_status_borrower_invariant [Mutation.issueBook "3" (some "") (some "2025-07-01") "t0"]
      ⟨"3", "The Great Gatsby", "F. Scott Fitzgerald", "9780743273565", "Fiction", "Issued",
        "2025-03-05T00:00:00.000Z", some "", some "2025-07-01"⟩ (by decide)).2
      (by decide) rfl⟩

/-- C1 as stated fails: on the seed, `issueBook("1", null, null)` returns true and
leaves book "1" with status Issued and borrower null, so the invariant does not hold
in every state reached by calls with arbitrary arguments. -/
theorem C1_null_borrower_counterexample :
    (seed.issueBook "1" none none "t0").1 = true ∧
    ¬ ∀ (ms : List Mutation) (b : Book), b ∈ (runMutations ms seed).books →
      (b.status = "Issued" → b.borrower ≠ none) ∧
      (b.status = "Available" → b.borrower = none ∧ b.dueDate = none) := by
  refine ⟨by decide, fun h => ?_⟩
  have hmem : (⟨"1", "To Kill a Mockingbird", "Harper Lee", "9780061120084", "Fiction",
      "Issued", "2025-01-15T00:00:00.000Z", none, none⟩ : Book) ∈
      (runMutations [Mutation.issueBook "1" none none "t0"] seed).books := by decide
  exact (h _ _ hmem).1 rfl rfl

/-- C2. If no book has the id, or the book `getBookById` finds has a status other
than Available, then `issueBook` returns false and leaves books, history and the
persisted storage exactly as they were. -/
theorem C2_issueBook_failure (s : LibraryManager) (id : String)
    (borrower dueDate : Option String) (now : String)
    (h : (∀ b ∈ s.books, b.id ≠ id) ∨
      ∃ book, s.getBookById id = some book ∧ book.status ≠ "Available") :
    s.issueBook id borrower dueDate now = (false, s) := by
  rcases h with h | ⟨book, h, hst⟩
  · simp [issueBook, (getBookById_eq_none_iff s id).2 h]
  · simp [issueBook, h, hst]

theorem C2_issueBook_failure_witness :
    seed.issueBook "2" (some "Alice") (some "2025-07-01") "t0" = (false, seed) ∧
    seed.issueBook "999" (some "Alice") (some "2025-07-01") "t0" = (false, seed) :=
  ⟨C2_issueBook_failure seed "2" (some "Alice") (some "2025-07-01") "t0"
      (Or.inr ⟨initialBooks.get ⟨1, by decide⟩, by decide, by decide⟩),
    C2_issueBook_failure seed "999" (some "Alice") (some "2025-07-01") "t0" (Or.inl (by decide))⟩

/-- C3. `returnBook` returns false exactly when the book is absent, the book found
is not Issued, or that book has no borrower recorded (null or the empty string); in
each of those cases books, history and the persisted storage are unchanged; in every
other case it returns true. -/
theorem C3_returnBook_failure (s : LibraryManager) (id now : String) :
    ((s.returnBook id now).1 = false ↔
      ((∀ b ∈ s.books, b.id ≠ id) ∨
        ∃ book, s.getBookById id = some book ∧
          (book.status ≠ "Issued" ∨ book.borrower = none ∨ book.borrower = some ""))) ∧
    ((s.returnBook id now).1 = false → (s.returnBook id now).2 = s) ∧
    (∀ book w, s.getBookById id = some book → book.status = "Issued" →
      book.borrower = some w → w ≠ "" → (s.returnBook id now).1 = true) := by
  rw [← getBookById_eq_none_iff]
  unfold returnBook
  cases hfind : s.getBookById id with
  | none => simp
  | some book =>
    by_cases hst : book.status = "Issued"
    · cases hbor : book.borrower with
      | none =>
        simp only [hst, hbor]
        refine ⟨by simp [hst, hbor], by simp, ?_⟩
        rintro b w ⟨rfl⟩ _ hb _
        simp [hbor] at hb
      | some w =>
        by_cases hw : w = ""
        · simp only [hst, hbor, hw]
          refine ⟨by simp [hst, hbor, hw], by simp, ?_⟩
          rintro b v ⟨rfl⟩ _ hb hv
          simp only [hbor, hw, Option.some.injEq] at hb
          exact absurd hb.symm hv
        · simp [hst, hbor, hw]
    · simp only [bne_iff_ne, ne_eq, hst, not_false_eq_true, ↓reduceIte]
      refine ⟨by simp [hst], by simp, ?_⟩
      rintro b w ⟨rfl⟩ hb _ _
      exact absurd hb hst

theorem C3_returnBook_failure_witness :
    (seed.returnBook "1" "t0").2 = seed ∧ (seed.returnBook "2" "t0").1 = true :=
  ⟨(C3_returnBook_failure seed "1" "t0").2.1 (by decide),
    (C3_returnBook_failure seed "2" "t0").2.2 (initialBooks.get ⟨1, by decide⟩) "John Doe"
      (by decide) (by decide) (by decide) (by decide)⟩

/-- C4. When the book `getBookById` finds is Available, `issueBook` returns true;
that book, at its position, becomes Issued with the given borrower and dueDate and
its id, title, author, isbn, category and addedDate as before; every other book and
the order and length of books are unchanged; history is the old history followed by
one record with action Issue, bookId the given id, bookTitle the title of the book,
the given borrower, and id the decimal string of the old history length plus one. -/
theorem C4_issueBook_success (s : LibraryManager) (id : String)
    (borrower dueDate : Option String) (now : String) (book : Book)
    (hfind : s.getBookById id = some book) (hst : book.status = "Available") :
    (s.issueBook id borrower dueDate now).1 = true ∧
    (∃ before after, s.books = before ++ book :: after ∧ (∀ x ∈ before, x.id ≠ id) ∧
      book.id = id ∧
      (s.issueBook id borrower dueDate now).2.books =
        before ++
          { id := book.id, title := book.title, author := book.author, isbn := book.isbn,
            category := book.category, addedDate := book.addedDate,
            status := "Issued", borrower := borrower, dueDate := dueDate } :: after) ∧
    (s.issueBook id borrower dueDate now).2.books.length = s.books.length ∧
    (s.issueBook id borrower dueDate now).2.history =
      s.history ++
        [{ id := toString (s.history.length + 1), bookId := id, bookTitle := book.title,
           action := "Issue", borrower := borrower, date := now }] := by
  obtain ⟨before, after, h1, h2, h3, h4⟩ :=
    assignFound_of_find
      (fun b => { b with status := "Issued", borrower := borrower, dueDate := dueDate })
      hfind
  refine ⟨by simp [issueBook, hfind, hst], ⟨before, after, h1, h2, h3, ?_⟩, ?_, ?_⟩
  · simp [issueBook, hfind, hst, saveData, h4]
  · simp [issueBook, hfind, hst, saveData, assignFound_length]
  · simp [issueBook, hfind, hst, saveData]

theorem C4_issueBook_success_witness :
    (seed.issueBook "3" (some "Alice") (some "2025-07-01") "t0").1 = true ∧
    (seed.issueBook "3" (some "Alice") (some "2025-07-01") "t0").2.history =
      initialHistory ++ [⟨"3", "3", "The Great Gatsby", "Issue", some "Alice", "t0"⟩] :=
  ⟨(C4_issueBook_success seed "3" (some "Alice") (some "2025-07-01") "t0"
      (initialBooks.get ⟨2, by decide⟩) (by decide) (by decide)).1,
    (C4_issueBook_success seed "3" (some "Alice") (some "2025-07-01") "t0"
      (initialBooks.get ⟨2, by decide⟩) (by decide) (by decide)).2.2.2⟩

/-- C5. When the book `getBookById` finds is Issued with a recorded borrower `w`,
`returnBook` returns true; that book, at its position, becomes Available with
borrower null and dueDate null and its other fields as before; every other book and
the order and length of books are unchanged; history is the old history followed by
one record with action Return, bookId the given id, bookTitle the title of the book
and borrower `w`, the borrower read before it was cleared. -/
theorem C5_returnBook_success (s : LibraryManager) (id now : String) (book : Book)
    (w : String) (hfind : s.getBookById id = some book) (hst : book.status = "Issued")
    (hbor : book.borrower = some w) (hw : w ≠ "") :
    (s.returnBook id now).1 = true ∧
    (∃ before after, s.books = before ++ book :: after ∧ (∀ x ∈ before, x.id ≠ id) ∧
      book.id = id ∧
      (s.returnBook id now).2.books =
        before ++
          { id := book.id, title := book.title, author := book.author, isbn := book.isbn,
            category := book.category, addedDate := book.addedDate,
            status := "Available", borrower := none, dueDate := none } :: after) ∧
    (s.returnBook id now).2.books.length = s.books.length ∧
    (s.returnBook id now).2.history =
      s.history ++
        [{ id := toString (s.history.length + 1), bookId := id, bookTitle := book.title,
           action := "Return", borrower := some w, date := now }] := by
  obtain ⟨before, after, h1, h2, h3, h4⟩ :=
    assignFound_of_find
      (fun b => { b with status := "Available", borrower := none, dueDate := none })
      hfind
  refine ⟨by simp [returnBook, hfind, hst, hbor, hw], ⟨before, after, h1, h2, h3, ?_⟩, ?_, ?_⟩
  · simp [returnBook, hfind, hst, hbor, hw, saveData, h4]
  · simp [returnBook, hfind, hst, hbor, hw, saveData, assignFound_length]
  · simp [returnBook, hfind, hst, hbor, hw, saveData]

theorem C5_returnBook_success_witness :
    (seed.returnBook "2" "t0").1 = true ∧
    (seed.returnBook "2" "t0").2.history =
      initialHistory ++ [⟨"3", "2", "1984", "Return", some "John Doe", "t0"⟩] :=
  ⟨(C5_returnBook_success seed "2" "t0" (initialBooks.get ⟨1, by decide⟩) "John Doe"
      (by decide) (by decide) (by decide) (by decide)).1,
    (C5_returnBook_success seed "2" "t0" (initialBooks.get ⟨1, by decide⟩) "John Doe"
      (by decide) (by decide) (by decide) (by decide)).2.2.2⟩

/-- C6. For every state with n books and every input, whatever its fields hold and
whatever id, status, addedDate, borrower or dueDate it carries, `addBook` returns a
book whose id is the decimal string of n + 1, whose status is Available, whose
borrower and dueDate are null and whose title, author, isbn and category are those
of the input; afterwards books is the old sequence with that book appended last
(length n + 1) and history is unchanged. -/
theorem C6_addBook (s : LibraryManager) (bookData : BookData) (now : String) :
    (s.addBook bookData now).1 =
      { id := toString (s.books.length + 1), title := bookData.title,
        author := bookData.author, isbn := bookData.isbn, category := bookData.category,
        status := "Available", addedDate := now, borrower := none, dueDate := none } ∧
    (s.addBook bookData now).2.books = s.books ++ [(s.addBook bookData now).1] ∧
    (s.addBook bookData now).2.books.getLast? = some (s.addBook bookData now).1 ∧
    (s.addBook bookData now).2.books.length = s.books.length + 1 ∧
    (s.addBook bookData now).2.history = s.history := by
  refine ⟨rfl, rfl, ?_, ?_, rfl⟩
  · simp [addBook, saveData]
  · simp [addBook, saveData]

theorem C6_addBook_witness :
    (seed.addBook ⟨"Dune", "Frank Herbert", "9780441013593", "Science Fiction",
        some "17", some "Issued", none, some "Eve", some "2025-07-01"⟩ "t0").1 =
      ⟨"6", "Dune", "Frank Herbert", "9780441013593", "Science Fiction", "Available",
        "t0", none, none⟩ ∧
    (seed.addBook ⟨"Dune", "Frank Herbert", "9780441013593", "Science Fiction",
        some "17", some "Issued", none, some "Eve", some "2025-07-01"⟩ "t0").2.books.length = 6 :=
  ⟨(C6_addBook seed ⟨"Dune", "Frank Herbert", "9780441013593", "Science Fiction",
        some "17", some "Issued", none, some "Eve", some "2025-07-01"⟩ "t0").1,
    (C6_addBook seed ⟨"Dune", "Frank Herbert", "9780441013593", "Science Fiction",
        some "17", some "Issued", none, some "Eve", some "2025-07-01"⟩ "t0").2.2.2.1⟩

/-- C7. `deleteBook` returns true if and only if some book of the state has the id.
When it returns true, books is the old sequence without the books of that id, the
others in their original order, and history is unchanged. When it returns false,
books, history and the storage are unchanged and `setItem` was not called. -/
theorem C7_deleteBook (s : LibraryManager) (id : String) :
    ((s.deleteBook id).1 = true ↔ ∃ b ∈ s.books, b.id = id) ∧
    ((s.deleteBook id).1 = true →
      (s.deleteBook id).2.books = s.books.filter (fun b => decide (b.id ≠ id)) ∧
      (s.deleteBook id).2.history = s.history) ∧
    ((s.deleteBook id).1 = false →
      (s.deleteBook id).2 = s ∧
      (s.deleteBook id).2.localStorage.setItemCalls = s.localStorage.setItemCalls) := by
  have hfilter : (fun b : Book => b.id != id) = (fun b => decide (b.id ≠ id)) := by
    funext b; simp [bne, Bool.not_eq_true]
    by_cases h : b.id = id <;> simp [h]
  have hle : (s.books.filter (fun b => b.id != id)).length ≤ s.books.length :=
    List.length_filter_le _ _
  by_cases hex : ∃ b ∈ s.books, b.id = id
  · have hlt : (s.books.filter (fun b => b.id != id)).length < s.books.length := by
      rcases Nat.lt_or_ge (s.books.filter (fun b => b.id != id)).length s.books.length with h | h
      · exact h
      · exfalso
        have heq : s.books.filter (fun b => b.id != id) = s.books :=
          List.Sublist.eq_of_length_le (List.filter_sublist _) h
        obtain ⟨b, hb, hbid⟩ := hex
        rw [← heq] at hb
        have := (List.mem_filter.1 hb).2
        simp [hbid] at this
    have hd : s.deleteBook id =
        (true, saveData { s with books := s.books.filter (fun b => b.id != id) }) := by
      unfold deleteBook
      exact if_pos hlt
    rw [hd]
    refine ⟨?_, ?_, ?_⟩
    · simp [hex]
    · intro _
      exact ⟨by simp only [saveData, hfilter], rfl⟩
    · simp
  · have hall : ∀ b ∈ s.books, (b.id != id) = true := by
      intro b hb
      have : b.id ≠ id := fun h => hex ⟨b, hb, h⟩
      simpa using this
    have heq : s.books.filter (fun b => b.id != id) = s.books := List.filter_eq_self.2 hall
    have hd : s.deleteBook id = (false, s) := by
      unfold deleteBook
      simp only [heq, Nat.lt_irrefl, if_false]
    rw [hd]
    refine ⟨?_, ?_, ?_⟩
    · simp [hex]
    · simp
    · intro _
      exact ⟨rfl, rfl⟩

theorem C7_deleteBook_witness :
    (seed.deleteBook "999").2 = seed ∧
    (seed.deleteBook "999").2.localStorage.setItemCalls = seed.localStorage.setItemCalls :=
  (C7_deleteBook seed "999").2.2 (by decide)

/-- C8. Ids assigned by `addBook` collide after a deletion: from the seed,
`deleteBook("3")` followed by `addBook` of any data returns a book with id "5", the
id of the book "The Hobbit" that is still present, so the resulting state holds two
distinct books with the same id; uniqueness of book ids is not an invariant of the
reachable states. -/
theorem C8_id_collision_after_delete (bookData : BookData) (now : String) :
    (((seed.deleteBook "3").2.addBook bookData now).1.id = "5" ∧
      ((seed.deleteBook "3").2.addBook bookData now).2 =
        runMutations [Mutation.deleteBook "3", Mutation.addBook bookData now] seed ∧
      ∃ hobbit ∈ ((seed.deleteBook "3").2.addBook bookData now).2.books,
        hobbit.title = "The Hobbit" ∧ hobbit.id = "5" ∧
        ((seed.deleteBook "3").2.addBook bookData now).1 ∈
          ((seed.deleteBook "3").2.addBook bookData now).2.books ∧
        hobbit ≠ ((seed.deleteBook "3").2.addBook bookData now).1) ∧
    ¬ ∀ ms : List Mutation, ((runMutations ms seed).books.map (fun b => b.id)).Nodup := by
  have hdel : (seed.deleteBook "3").2.books.length = 4 := by decide
  have hid : ((seed.deleteBook "3").2.addBook bookData now).1.id = "5" := by
    simp only [addBook, hdel]
    decide
  have hmem : initialBooks.get ⟨4, by decide⟩ ∈
      ((seed.deleteBook "3").2.addBook bookData now).2.books := by
    have : initialBooks.get ⟨4, by decide⟩ ∈ (seed.deleteBook "3").2.books := by decide
    simp only [addBook, saveData, List.mem_append]
    exact Or.inl this
  have hnew : ((seed.deleteBook "3").2.addBook bookData now).1 ∈
      ((seed.deleteBook "3").2.addBook bookData now).2.books := by
    simp [addBook, saveData]
  have hne : initialBooks.get ⟨4, by decide⟩ ≠
      ((seed.deleteBook "3").2.addBook bookData now).1 := by
    intro h
    have hs : (initialBooks.get ⟨4, by decide⟩).status = "Available" := by rw [h]; rfl
    exact absurd hs (by decide)
  have hrun : ((seed.deleteBook "3").2.addBook bookData now).2 =
      runMutations [Mutation.deleteBook "3", Mutation.addBook bookData now] seed := rfl
  refine ⟨⟨hid, hrun, initialBooks.get ⟨4, by decide⟩, hmem, by decide, by decide, hnew, hne⟩, ?_⟩
  intro hall
  have hnodup := hall [Mutation.deleteBook "3", Mutation.addBook bookData now]
  rw [← hrun] at hnodup
  have hinj := List.inj_on_of_nodup_map hnodup hmem hnew
  exact hne (hinj (by rw [hid]; decide))

/-- C9. History is append-only: for every state and every single call on the store,
mutation or query, with arbitrary arguments, the history before the call is an
initial segment of the history after it, each existing record staying at its
position with all its fields; the same holds over any sequence of calls; and
`deleteBook` leaves history as it is, so the bookTitle of a record survives the
deletion of its book. -/
theorem C9_history_append_only (toLowerCase : String → String) (s : LibraryManager) :
    (∀ op : Operation,
      s.history <+: (op.run toLowerCase s).2.history ∧
      ∀ (k : Nat) (r : HistoryRecord),
        s.history[k]? = some r → (op.run toLowerCase s).2.history[k]? = some r) ∧
    (∀ (ops : List Operation) (k : Nat) (r : HistoryRecord),
      s.history[k]? = some r → (runOperations toLowerCase ops s).history[k]? = some r) ∧
    (∀ id : String, (s.deleteBook id).2.history = s.history) := by
  refine ⟨fun op => ⟨history_prefix_operation toLowerCase op s, fun k r hk =>
      getElem?_of_initial_segment (history_prefix_operation toLowerCase op s) k r hk⟩,
    fun ops k r hk => getElem?_of_initial_segment (history_prefix_runOperations toLowerCase ops s) k r hk,
    ?_⟩
  intro id
  unfold deleteBook
  simp only
  split <;> rfl

theorem C9_history_append_only_witness :
    (runOperations asciiToLowerCase
      [Operation.mutation (Mutation.deleteBook "2"), Operation.query (Query.searchHistory "x"),
        Operation.mutation (Mutation.issueBook "1" (some "Bob") none "t0")] seed).history[0]? =
      some ⟨"1", "2", "1984", "Issue", some "John Doe", "2025-05-10T00:00:00.000Z"⟩ :=
  (C9_history_append_only asciiToLowerCase seed).2.1
    [Operation.mutation (Mutation.deleteBook "2"), Operation.query (Query.searchHistory "x"),
      Operation.mutation (Mutation.issueBook "1" (some "Bob") none "t0")] 0
    ⟨"1", "2", "1984", "Issue", some "John Doe", "2025-05-10T00:00:00.000Z"⟩ (by decide)

/-- C10. If the term is empty or only white space, `searchBooks` returns the empty
list; otherwise it returns exactly the books, in catalog order, for which the
lower-cased term is a substring of the lower-cased title, author, isbn or category:
a book of the catalog is in the result if and only if it matches in one of the four
fields. Consequently a term that is not blank and whose lower-casing equals that of
a field of a book, that is, differs from it only in letter case, finds the book. -/
theorem C10_searchBooks (toLowerCase : String → String) (s : LibraryManager)
    (term : String) :
    (IsBlank term → s.searchBooks toLowerCase term = []) ∧
    (¬ IsBlank term →
      s.searchBooks toLowerCase term =
        s.books.filter (fun b => decide (MatchesTerm toLowerCase term b)) ∧
      ∀ b, b ∈ s.searchBooks toLowerCase term ↔
        b ∈ s.books ∧ MatchesTerm toLowerCase term b) ∧
    (¬ IsBlank term → ∀ b ∈ s.books,
      (toLowerCase term = toLowerCase b.title ∨ toLowerCase term = toLowerCase b.author ∨
        toLowerCase term = toLowerCase b.isbn ∨ toLowerCase term = toLowerCase b.category) →
      b ∈ s.searchBooks toLowerCase term) := by
  have hfilter : ¬ IsBlank term → s.searchBooks toLowerCase term =
      s.books.filter (fun b => decide (MatchesTerm toLowerCase term b)) := by
    intro hb
    have ht : ¬ trim term = "" := fun h => hb ((trim_eq_empty_iff term).1 h)
    unfold searchBooks
    simp only [beq_iff_eq, ht, if_false]
    apply List.filter_congr
    intro b _
    simp only [MatchesTerm, ← includes_iff, Bool.decide_or, Bool.decide_eq_true, Bool.or_assoc]
  have hmem : ¬ IsBlank term → ∀ b, b ∈ s.searchBooks toLowerCase term ↔
      b ∈ s.books ∧ MatchesTerm toLowerCase term b := by
    intro hb b
    rw [hfilter hb, List.mem_filter, decide_eq_true_iff]
  refine ⟨?_, fun hb => ⟨hfilter hb, hmem hb⟩, ?_⟩
  · intro hb
    have ht : trim term = "" := (trim_eq_empty_iff term).2 hb
    simp [searchBooks, ht]
  · intro hb b hbmem heq
    refine (hmem hb b).2 ⟨hbmem, ?_⟩
    unfold MatchesTerm IsSubstring
    rcases heq with h | h | h | h
    · exact Or.inl (h ▸ List.infix_refl _)
    · exact Or.inr (Or.inl (h ▸ List.infix_refl _))
    · exact Or.inr (Or.inr (Or.inl (h ▸ List.infix_refl _)))
    · exact Or.inr (Or.inr (Or.inr (h ▸ List.infix_refl _)))

theorem C10_searchBooks_witness :
    seed.searchBooks asciiToLowerCase " \t" = [] ∧
    (seed.searchBooks asciiToLowerCase "hObB").map (fun b => b.title) = ["The Hobbit"] ∧
    initialBooks.get ⟨4, by decide⟩ ∈ seed.searchBooks asciiToLowerCase "THE hobbit" :=
  ⟨(C10_searchBooks asciiToLowerCase seed " \t").1 (by decide),
    by rw [((C10_searchBooks asciiToLowerCase seed "hObB").2.1 (by decide)).1]; decide,
    (C10_searchBooks asciiToLowerCase seed "THE hobbit").2.2 (by decide)
      (initialBooks.get ⟨4, by decide⟩) (by decide) (Or.inl (by decide))⟩

/-- C11. If the term is empty or only white space, `searchHistory` returns the full
history, where `searchBooks` returns the empty list; otherwise, on a store whose
history records all have a string as borrower, as the data model has it, it returns
exactly the history records, in history order, for which the lower-cased term is a
substring of the lower-cased bookTitle, borrower or action. On any store, a result
that is returned is that list; the call throws exactly when the term is not blank
and some record has a null borrower and a title that does not match. -/
theorem C11_searchHistory (toLowerCase : String → String) (s : LibraryManager)
    (term : String) :
    (IsBlank term →
      s.searchHistory toLowerCase term = some s.history ∧
      s.searchBooks toLowerCase term = []) ∧
    (¬ IsBlank term → (∀ r ∈ s.history, r.borrower ≠ none) →
      s.searchHistory toLowerCase term =
        some (s.history.filter (fun r => decide (MatchesRecord toLowerCase term r)))) ∧
    (¬ IsBlank term → ∀ result, s.searchHistory toLowerCase term = some result →
      result = s.history.filter (fun r => decide (MatchesRecord toLowerCase term r)) ∧
      ∀ r, r ∈ result ↔ r ∈ s.history ∧ MatchesRecord toLowerCase term r) ∧
    (s.searchHistory toLowerCase term = none ↔
      ¬ IsBlank term ∧ ∃ r ∈ s.history, r.borrower = none ∧
        ¬ IsSubstring (toLowerCase term) (toLowerCase r.bookTitle)) := by
  by_cases hb : IsBlank term
  · have ht : trim term = "" := (trim_eq_empty_iff term).2 hb
    have hsearch : s.searchHistory toLowerCase term = some s.history := by
      simp [searchHistory, ht]
    refine ⟨fun _ => ⟨hsearch, by simp [searchBooks, ht]⟩, fun h => absurd hb h,
      fun h => absurd hb h, ?_⟩
    rw [hsearch]
    constructor
    · intro h
      cases h
    · intro h
      exact absurd hb h.1
  · have ht : ¬ trim term = "" := fun h => hb ((trim_eq_empty_iff term).1 h)
    have hsearch : s.searchHistory toLowerCase term =
        filterThrowing (historyRecordMatches toLowerCase (toLowerCase term)) s.history := by
      unfold searchHistory
      simp only [beq_iff_eq, ht, if_false]
    have hsound : ∀ result, s.searchHistory toLowerCase term = some result →
        result = s.history.filter (fun r => decide (MatchesRecord toLowerCase term r)) := by
      intro result hres
      rw [hsearch] at hres
      exact filterThrowing_sound _ _ s.history
        (fun r _ b hr => historyRecordMatches_sound toLowerCase term r b hr) result hres
    have hnone : s.searchHistory toLowerCase term = none ↔
        ∃ r ∈ s.history, r.borrower = none ∧
          ¬ IsSubstring (toLowerCase term) (toLowerCase r.bookTitle) := by
      rw [hsearch, filterThrowing_eq_none_iff]
      constructor
      · rintro ⟨r, hr, h⟩
        exact ⟨r, hr, (historyRecordMatches_eq_none_iff toLowerCase term r).1 h⟩
      · rintro ⟨r, hr, h⟩
        exact ⟨r, hr, (historyRecordMatches_eq_none_iff toLowerCase term r).2 h⟩
    refine ⟨fun h => absurd h hb, ?_, ?_, ?_⟩
    · intro _ hall
      cases hres : s.searchHistory toLowerCase term with
      | none =>
        obtain ⟨r, hr, hnull, _⟩ := hnone.1 hres
        exact absurd hnull (hall r hr)
      | some result => rw [hsound result hres]
    · intro _ result hres
      refine ⟨hsound result hres, fun r => ?_⟩
      rw [hsound result hres, List.mem_filter, decide_eq_true_iff]
    · rw [hnone]
      exact ⟨fun h => ⟨hb, h⟩, fun h => h.2⟩

theorem C11_searchHistory_witness :
    seed.searchHistory asciiToLowerCase "  " = some initialHistory ∧
    (seed.searchHistory asciiToLowerCase "JANE").map (fun hs => hs.map (fun r => r.id)) =
      some ["2"] :=
  ⟨((C11_searchHistory asciiToLowerCase seed "  ").1 (by decide)).1,
    by rw [(C11_searchHistory asciiToLowerCase seed "JANE").2.1 (by decide) (by decide)]; decide⟩

/-- C12. For every state, the categories count of `getStats` is the number of
distinct category values among the books, totalBooks is the number of books, and
availableBooks and issuedBooks are the numbers of books with status Available and
Issued. After an `addBook` whose category does not occur among the books the
categories count is exactly one more than before, and it is unchanged when the
category already occurs. -/
theorem C12_getStats (s : LibraryManager) :
    s.getStats.categories = (s.books.map (fun b => b.category)).toFinset.card ∧
    s.getStats.totalBooks = s.books.length ∧
    s.getStats.availableBooks = s.books.countP (fun b => decide (b.status = "Available")) ∧
    s.getStats.issuedBooks = s.books.countP (fun b => decide (b.status = "Issued")) ∧
    ∀ (bookData : BookData) (now : String),
      ((∀ b ∈ s.books, b.category ≠ bookData.category) →
        (s.addBook bookData now).2.getStats.categories = s.getStats.categories + 1) ∧
      ((∃ b ∈ s.books, b.category = bookData.category) →
        (s.addBook bookData now).2.getStats.categories = s.getStats.categories) := by
  refine ⟨categories_eq_card s, rfl, ?_, ?_, ?_⟩
  · simp only [getStats, getAvailableBooks, List.countP_eq_length_filter]
    congr 1
  · simp only [getStats, getIssuedBooks, List.countP_eq_length_filter]
    congr 1
  · intro bookData now
    rw [categories_eq_card, categories_eq_card, categories_toFinset_addBook]
    constructor
    · intro h
      apply Finset.card_insert_of_not_mem
      simp only [List.mem_toFinset, List.mem_map, not_exists, not_and]
      exact fun b hb => h b hb
    · rintro ⟨b, hb, hcat⟩
      rw [Finset.insert_eq_of_mem]
      simp only [List.mem_toFinset, List.mem_map]
      exact ⟨b, hb, hcat⟩

theorem C12_getStats_witness :
    seed.getStats = ⟨5, 3, 2, 4⟩ ∧
    (seed.addBook ⟨"It", "Stephen King", "9781501142970", "Horror",
        none, none, none, none, none⟩ "t0").2.getStats.categories = seed.getStats.categories + 1 ∧
    (seed.addBook ⟨"Dune", "Frank Herbert", "9780441013593", "Science Fiction",
        none, none, none, none, none⟩ "t0").2.getStats.categories = seed.getStats.categories :=
  ⟨by decide,
    ((C12_getStats seed).2.2.2.2 ⟨"It", "Stephen King", "9781501142970", "Horror",
        none, none, none, none, none⟩ "t0").1 (by decide),
    ((C12_getStats seed).2.2.2.2 ⟨"Dune", "Frank Herbert", "9780441013593", "Science Fiction",
        none, none, none, none, none⟩ "t0").2 (by decide)⟩

/-- C13. After every mutating call that succeeds (`addBook`; `deleteBook`,
`issueBook` or `returnBook` returning true) both storage keys have been written, with
two `setItem` calls, and hold the books and the history of the state the call leaves;
`loadData` on that state, and a new manager constructed on that storage, have books
and history identical to the ones in memory. -/
theorem C13_persist_then_reload (m : Mutation) (s : LibraryManager)
    (hok : (m.run s).1 ≠ Value.bool false) :
    (m.run s).2.localStorage.library_books = some (m.run s).2.books ∧
    (m.run s).2.localStorage.library_history = some (m.run s).2.history ∧
    (m.run s).2.localStorage.setItemCalls = s.localStorage.setItemCalls + 2 ∧
    (loadData (m.run s).2).books = (m.run s).2.books ∧
    (loadData (m.run s).2).history = (m.run s).2.history ∧
    (LibraryManager.new (m.run s).2.localStorage).books = (m.run s).2.books ∧
    (LibraryManager.new (m.run s).2.localStorage).history = (m.run s).2.history := by
  have hcalls : (m.run s).2.localStorage.setItemCalls = s.localStorage.setItemCalls + 2 := by
    cases m with
    | addBook bookData now => rfl
    | deleteBook id =>
      simp only [Mutation.run, deleteBook] at hok ⊢
      split at hok
      · rename_i hlt
        rw [if_pos hlt]
        rfl
      · exact absurd rfl hok
    | issueBook id borrower dueDate now =>
      simp only [Mutation.run] at hok ⊢
      cases hfind : s.getBookById id with
      | none => simp [issueBook, hfind] at hok
      | some book =>
        by_cases hst : book.status = "Available"
        · rw [issueBook_of_available s id borrower dueDate now book hfind hst]
          rfl
        · simp [issueBook, hfind, hst] at hok
    | returnBook id now =>
      simp only [Mutation.run] at hok ⊢
      cases hfind : s.getBookById id with
      | none => simp [returnBook, hfind] at hok
      | some book =>
        by_cases hst : book.status = "Issued"
        · cases hbor : book.borrower with
          | none => simp [returnBook, hfind, hst, hbor] at hok
          | some w =>
            by_cases hw : w = ""
            · simp [returnBook, hfind, hst, hbor, hw] at hok
            · rw [returnBook_of_issued s id now book w hfind hst hbor hw]
              rfl
        · simp [returnBook, hfind, hst] at hok
  obtain ⟨s1, hs1⟩ := run_eq_saveData m s hok
  refine ⟨?_, ?_, hcalls, ?_, ?_, ?_, ?_⟩ <;> rw [hs1] <;> rfl

theorem C13_persist_then_reload_witness :
    (LibraryManager.new
      ((Mutation.returnBook "2" "t0").run seed).2.localStorage).books =
      ((Mutation.returnBook "2" "t0").run seed).2.books ∧
    ((Mutation.returnBook "2" "t0").run seed).2.localStorage.setItemCalls = 2 :=
  ⟨(C13_persist_then_reload (Mutation.returnBook "2" "t0") seed (by decide)).2.2.2.2.2.1,
    (C13_persist_then_reload (Mutation.returnBook "2" "t0") seed (by decide)).2.2.1⟩

/-- C14. Issue followed by return is a round trip on the catalog: when the book
`getBookById` finds is Available with borrower null and dueDate null, then for every
non-empty borrower and every dueDate `issueBook` followed by `returnBook` both return
true, the resulting books sequence equals the original one, and history has grown by
exactly two records, an Issue record and then a Return record, both naming that
borrower. -/
theorem C14_issue_then_return (s : LibraryManager) (id borrower : String)
    (dueDate : Option String) (now₁ now₂ : String) (book : Book)
    (hfind : s.getBookById id = some book) (hst : book.status = "Available")
    (hbor : book.borrower = none) (hdue : book.dueDate = none) (hw : borrower ≠ "") :
    (s.issueBook id (some borrower) dueDate now₁).1 = true ∧
    ((s.issueBook id (some borrower) dueDate now₁).2.returnBook id now₂).1 = true ∧
    ((s.issueBook id (some borrower) dueDate now₁).2.returnBook id now₂).2.books = s.books ∧
    ((s.issueBook id (some borrower) dueDate now₁).2.returnBook id now₂).2.history =
      s.history ++
        [{ id := toString (s.history.length + 1), bookId := id, bookTitle := book.title,
           action := "Issue", borrower := some borrower, date := now₁ },
         { id := toString (s.history.length + 2), bookId := id, bookTitle := book.title,
           action := "Return", borrower := some borrower, date := now₂ }] := by
  obtain ⟨before, after, h1, h2, h3, h4⟩ :=
    assignFound_of_find
      (fun b => { b with status := "Issued", borrower := some borrower, dueDate := dueDate })
      hfind
  have hissue := issueBook_of_available s id (some borrower) dueDate now₁ book hfind hst
  have hbooks1 : (s.issueBook id (some borrower) dueDate now₁).2.books =
      before ++
        { id := book.id, title := book.title, author := book.author, isbn := book.isbn,
          category := book.category, addedDate := book.addedDate,
          status := "Issued", borrower := some borrower, dueDate := dueDate } :: after := by
    rw [hissue]
    exact h4
  have hhist1 : (s.issueBook id (some borrower) dueDate now₁).2.history =
      s.history ++
        [{ id := toString (s.history.length + 1), bookId := id, bookTitle := book.title,
           action := "Issue", borrower := some borrower, date := now₁ }] := by
    rw [hissue]
    rfl
  have hfind1 := getBookById_of_split (s.issueBook id (some borrower) dueDate now₁).2 id before after
    _ hbooks1 h2 h3
  have hreturn := returnBook_of_issued (s.issueBook id (some borrower) dueDate now₁).2 id now₂ _
    borrower hfind1 rfl rfl hw
  have hback : assignFound id
      (fun b => { b with status := "Available", borrower := none, dueDate := none })
      (s.issueBook id (some borrower) dueDate now₁).2.books = s.books := by
    rw [hbooks1, assignFound_split id _ before _ after h2 (by exact h3), h1]
    cases book
    simp only at hst hbor hdue
    simp only [hst, hbor, hdue]
  refine ⟨by rw [hissue], by rw [hreturn], ?_, ?_⟩
  · rw [hreturn]
    exact hback
  · rw [hreturn]
    simp only [saveData, hhist1, List.length_append, List.length_singleton, List.append_assoc,
      List.singleton_append]

theorem C14_issue_then_return_witness :
    ((seed.issueBook "3" (some "Alice") (some "2025-07-01") "t1").2.returnBook "3" "t2").2.books =
      seed.books ∧
    ((seed.issueBook "3" (some "Alice") (some "2025-07-01") "t1").2.returnBook "3" "t2").2.history =
      initialHistory ++
        [⟨"3", "3", "The Great Gatsby", "Issue", some "Alice", "t1"⟩,
         ⟨"4", "3", "The Great Gatsby", "Return", some "Alice", "t2"⟩] :=
  ⟨(C14_issue_then_return seed "3" "Alice" (some "2025-07-01") "t1" "t2"
      (initialBooks.get ⟨2, by decide⟩) (by decide) (by decide) (by decide) (by decide)
      (by decide)).2.2.1,
    (C14_issue_then_return seed "3" "Alice" (some "2025-07-01") "t1" "t2"
      (initialBooks.get ⟨2, by decide⟩) (by decide) (by decide) (by decide) (by decide)
      (by decide)).2.2.2⟩

/-- C15. In every state reached from the seed by a finite sequence of `addBook`,
`deleteBook`, `issueBook` and `returnBook` calls, the status of every book is
Available or Issued; therefore `getStats` gives totalBooks = availableBooks +
issuedBooks, and every book of the catalog is in exactly one of `getAvailableBooks`
and `getIssuedBooks`. -/
theorem C15_status_partition (ms : List Mutation) :
    (∀ b ∈ (runMutations ms seed).books, b.status = "Available" ∨ b.status = "Issued") ∧
    (runMutations ms seed).getStats.totalBooks =
      (runMutations ms seed).getStats.availableBooks +
        (runMutations ms seed).getStats.issuedBooks ∧
    (∀ b ∈ (runMutations ms seed).books,
      (b ∈ (runMutations ms seed).getAvailableBooks ∨
        b ∈ (runMutations ms seed).getIssuedBooks) ∧
      ¬ (b ∈ (runMutations ms seed).getAvailableBooks ∧
        b ∈ (runMutations ms seed).getIssuedBooks)) := by
  have hknown : StatusesKnown (runMutations ms seed).books :=
    statusesKnown_runMutations ms seed statusesKnown_initialBooks
  refine ⟨hknown, ?_, ?_⟩
  · exact (length_filter_statuses _ hknown).symm
  · intro b hb
    simp only [getAvailableBooks, getIssuedBooks, List.mem_filter, beq_iff_eq]
    constructor
    · rcases hknown b hb with h | h
      · exact Or.inl ⟨hb, h⟩
      · exact Or.inr ⟨hb, h⟩
    · rintro ⟨⟨_, h1⟩, ⟨_, h2⟩⟩
      rw [h1] at h2
      exact absurd h2 (by decide)

theorem C15_status_partition_witness :
    (initialBooks.get ⟨0, by decide⟩ ∈
        (runMutations [Mutation.deleteBook "3", Mutation.returnBook "2" "t0"]
          seed).getAvailableBooks ∨
      initialBooks.get ⟨0, by decide⟩ ∈
        (runMutations [Mutation.deleteBook "3", Mutation.returnBook "2" "t0"]
          seed).getIssuedBooks) ∧
    (runMutations [Mutation.deleteBook "3", Mutation.returnBook "2" "t0"]
      seed).getStats.totalBooks = 3 + 1 :=
  ⟨((C15_status_partition [Mutation.deleteBook "3", Mutation.returnBook "2" "t0"]).2.2
      (initialBooks.get ⟨0, by decide⟩) (by decide)).1,
    (C15_status_partition [Mutation.deleteBook "3", Mutation.returnBook "2" "t0"]).2.1⟩

/-- C16. In every state reached from the seed by a finite sequence of calls on the
store, the history record at position k, counted from 1, has the decimal string of k
as its id; hence the ids of the history records are pairwise distinct. -/
theorem C16_history_ids (toLowerCase : String → String) (ops : List Operation) :
    (∀ (k : Nat) (r : HistoryRecord),
      (runOperations toLowerCase ops seed).history[k]? = some r → r.id = toString (k + 1)) ∧
    (∀ (i j : Nat) (r₁ r₂ : HistoryRecord),
      (runOperations toLowerCase ops seed).history[i]? = some r₁ →
      (runOperations toLowerCase ops seed).history[j]? = some r₂ →
      r₁.id = r₂.id → i = j) ∧
    ((runOperations toLowerCase ops seed).history.map (fun r => r.id)).Nodup := by
  have hnum : HistoryNumbered (runOperations toLowerCase ops seed).history :=
    historyNumbered_runOperations toLowerCase ops seed historyNumbered_initialHistory
  exact ⟨hnum, fun i j r₁ r₂ hi hj hid => index_eq_of_numbered hnum hi hj hid,
    nodup_ids_of_numbered hnum⟩

theorem C16_history_ids_witness :
    (⟨"3", "1", "To Kill a Mockingbird", "Issue", some "Bob", "t0"⟩ : HistoryRecord).id =
      toString (2 + 1) :=
  (C16_history_ids asciiToLowerCase
    [Operation.mutation (Mutation.deleteBook "2"), Operation.query Query.getStats,
      Operation.mutation (Mutation.issueBook "1" (some "Bob") none "t0")]).1 2
    ⟨"3", "1", "To Kill a Mockingbird", "Issue", some "Bob", "t0"⟩ (by decide)

end LibrarySystem
